import Mathlib

/-!
Shallow embedding of the staking-pool canister
(src/staking_pool_backend/src/lib.rs and types.rs).

Machine integers (u64) are modelled as Nat together with explicit
operations: saturating subtraction is Nat subtraction, saturating
addition is capped at U64MAX, the unchecked additions of the source
(total_staked += balance, total_distributed += user_reward,
total_slashed += slash_amount) are modelled as checked additions that
trap (return none) on overflow, and the as-u64 cast is reduction
mod 2 ^ 64.

Remote ledger calls (account_balance, transfer) are suspension points
whose replies are inputs of the functions: a balance query result is an
Option Nat (none models transport failure) and a transfer outcome is a
TransferResult.  The executions modelled are the non-interleaved ones:
no other call mutates the state while an operation is suspended.

The thread-local STATE RefCell enforces the dynamic borrow discipline
of Rust: borrow_mut panics while any shared borrow is live.  The final
total_staked updates of reward_pool (lib.rs 303-305) and slash_pool
(lib.rs 372-374) read and write the cell in one compound assignment;
they are embedded through an explicit borrow-flag model below.
Option-valued operations return none exactly on a runtime trap.
-/

namespace StakingPool

deriving instance DecidableEq for Except

/-- Largest u64 value. -/
def U64MAX : Nat := 2 ^ 64 - 1

/-- Rust u64::saturating_add. -/
def satAddU64 (a b : Nat) : Nat := min (a + b) U64MAX

/-- Rust unchecked u64 addition: traps (none) on overflow. -/
def checkedAddU64 (a b : Nat) : Option Nat :=
  if a + b ≤ U64MAX then some (a + b) else none

/-- Rust (x as u64) cast of a u128 value. -/
def castU64 (n : Nat) : Nat := n % 2 ^ 64

/-- ic_ledger_types::DEFAULT_FEE, 10_000 e8s. -/
def DEFAULT_FEE_E8S : Nat := 10000

/-- 15 minutes in nanoseconds, the deposit-intention expiry window. -/
def FIFTEEN_MIN_NS : Nat := 15 * 60 * 1000000000

/-- Caller identities are opaque; modelled as Nat. -/
abbrev Principal := Nat

/-- A 32-byte subaccount, modelled as its list of byte values. -/
abbrev Subaccount := List Nat

/-- u64::to_be_bytes, the 8 big-endian bytes of a u64. -/
def beBytes8 (n : Nat) : List Nat :=
  [n / 2 ^ 56 % 256, n / 2 ^ 48 % 256, n / 2 ^ 40 % 256, n / 2 ^ 32 % 256,
   n / 2 ^ 24 % 256, n / 2 ^ 16 % 256, n / 2 ^ 8 % 256, n % 256]

/-- types.rs LockPeriod. -/
inductive LockPeriod where
  | Days90
  | Days180
  | Days360
deriving DecidableEq

/-- types.rs LockPeriod::to_seconds. -/
def LockPeriod.to_seconds : LockPeriod → Nat
  | .Days90 => 90 * 24 * 60 * 60
  | .Days180 => 180 * 24 * 60 * 60
  | .Days360 => 360 * 24 * 60 * 60

/-- types.rs Deposit.  lock_period is in seconds, deposit_time in ns. -/
structure Deposit where
  amount : Nat
  deposit_time : Nat
  lock_period : Nat
  subaccount : Subaccount
deriving DecidableEq

/-- lib.rs PendingDeposit. -/
structure PendingDeposit where
  user : Principal
  expected_amount : Nat
  lock_period : Nat
  created_time : Nat
deriving DecidableEq

/-- types.rs StakingError.  The diagnostic string payload of
TransferFailed is not modelled; no behaviour depends on it. -/
inductive StakingError where
  | InsufficientFunds
  | DepositNotFound
  | LockPeriodNotExpired
  | TransferFailed
  | InvalidAmount
  | Unauthorized
  | DepositExpired
deriving DecidableEq

/-- Outcome of a remote ledger transfer: Ok(Ok(height)), Ok(Err(e)) or
a transport-level Err((code, msg)). -/
inductive TransferResult where
  | success
  | ledgerRejected
  | transportFailed
deriving DecidableEq

/-- lib.rs State.  The two HashMaps are modelled as association lists
(key unique by construction; HashMap iteration order is irrelevant to
the claims settled here). -/
structure State where
  users : List (Principal × List Deposit)
  total_staked : Nat
  next_subaccount_id : Nat
  pending_deposits : List (Subaccount × PendingDeposit)
  reward_subaccount : Option Subaccount
deriving DecidableEq

/-- State::default(): all collections empty, counters zero. -/
def State.default : State :=
  { users := [], total_staked := 0, next_subaccount_id := 0,
    pending_deposits := [], reward_subaccount := none }

/-- HashMap::get on an association list. -/
def lookupAssoc {α β : Type} [DecidableEq α] : List (α × β) → α → Option β
  | [], _ => none
  | (k, v) :: rest, key => if k = key then some v else lookupAssoc rest key

/-- Update the value at a key in place (no-op if the key is absent),
as a HashMap::get_mut followed by mutation. -/
def updateAssoc {α β : Type} [DecidableEq α] (f : β → β) :
    List (α × β) → α → List (α × β)
  | [], _ => []
  | (k, v) :: rest, key =>
      if k = key then (k, f v) :: rest else (k, v) :: updateAssoc f rest key

/-- HashMap::insert (replaces an existing binding). -/
def insertAssoc {α β : Type} [DecidableEq α] :
    List (α × β) → α → β → List (α × β)
  | [], key, v => [(key, v)]
  | (k, w) :: rest, key, v =>
      if k = key then (k, v) :: rest else (k, w) :: insertAssoc rest key v

/-- HashMap::remove. -/
def removeAssoc {α β : Type} [DecidableEq α] : List (α × β) → α → List (α × β)
  | [], _ => []
  | (k, v) :: rest, key => if k = key then rest else (k, v) :: removeAssoc rest key

/-- State::get_user_deposits_mut (users.entry(u).or_insert(empty))
followed by deposits.push(d). -/
def pushDeposit : List (Principal × List Deposit) → Principal → Deposit →
    List (Principal × List Deposit)
  | [], u, d => [(u, [d])]
  | (k, ds) :: rest, u, d =>
      if k = u then (k, ds ++ [d]) :: rest else (k, ds) :: pushDeposit rest u d

/-- State::generate_subaccount (lib.rs 47-53): 24 zero bytes followed by
the big-endian counter bytes; the counter advances. -/
def State.generate_subaccount (st : State) : Subaccount × State :=
  (List.replicate 24 0 ++ beBytes8 st.next_subaccount_id,
   { st with next_subaccount_id := castU64 (st.next_subaccount_id + 1) })

/-- State::get_reward_subaccount (lib.rs 55-63): lazily allocated,
memoized thereafter. -/
def State.get_reward_subaccount (st : State) : Subaccount × State :=
  match st.reward_subaccount with
  | some sub => (sub, st)
  | none =>
      let p := st.generate_subaccount
      (p.1, { p.2 with reward_subaccount := some p.1 })

/-- The data returned by create_deposit_intention.  The textual
deposit_address is AccountIdentifier::new(canister, subaccount), an
injective external derivation from the subaccount; it is not modelled
separately. -/
structure DepositIntention where
  subaccount : Subaccount
  expected_amount : Nat
  expires_at : Nat
deriving DecidableEq

/-- create_deposit_intention (lib.rs 74-105).  now is the value of
time() during the call. -/
def create_deposit_intention (st : State) (caller : Principal)
    (amount : Nat) (lock : LockPeriod) (now : Nat) :
    Except StakingError DepositIntention × State :=
  if amount = 0 then (.error .InvalidAmount, st)
  else
    let p := st.generate_subaccount
    let pd : PendingDeposit :=
      { user := caller, expected_amount := amount,
        lock_period := lock.to_seconds, created_time := now }
    (.ok { subaccount := p.1, expected_amount := amount,
           expires_at := now + FIFTEEN_MIN_NS },
     { p.2 with pending_deposits := insertAssoc p.2.pending_deposits p.1 pd })

/-- confirm_deposit (lib.rs 110-166).  balance is the reply of the
remote account_balance query (none models transport failure).  The
result is none exactly when the commit traps: total_staked += balance
is an unchecked u64 addition. -/
def confirm_deposit (st : State) (caller : Principal) (sub : Subaccount)
    (now : Nat) (balance : Option Nat) :
    Option (Except StakingError Unit × State) :=
  match lookupAssoc st.pending_deposits sub with
  | none => some (.error .DepositNotFound, st)
  | some pd =>
      if pd.user ≠ caller then some (.error .Unauthorized, st)
      else if pd.created_time + FIFTEEN_MIN_NS < now then
        some (.error .DepositExpired,
              { st with pending_deposits := removeAssoc st.pending_deposits sub })
      else
        match balance with
        | none => some (.error .TransferFailed, st)
        | some bal =>
            if bal < pd.expected_amount then some (.error .InsufficientFunds, st)
            else
              match checkedAddU64 st.total_staked bal with
              | none => none
              | some total1 =>
                  some (.ok (),
                        { st with
                          users := pushDeposit st.users caller
                            { amount := bal, deposit_time := now,
                              lock_period := pd.lock_period, subaccount := sub },
                          total_staked := total1,
                          pending_deposits := removeAssoc st.pending_deposits sub })

/-- The post-transfer commit of withdraw (lib.rs 210-217): executed only
when the ledger transfer succeeded; both the positional removal and the
saturating subtraction are guarded by users.get_mut(&caller). -/
def withdrawCommit (st : State) (caller : Principal) (i : Nat) (amount : Nat) :
    State :=
  match lookupAssoc st.users caller with
  | none => st
  | some _ =>
      { st with
        users := updateAssoc (fun ds => ds.eraseIdx i) st.users caller,
        total_staked := st.total_staked - amount }

/-- withdraw (lib.rs 170-223).  transfer is the outcome of the remote
ledger transfer.  The index bound check and the element access of the
source are fused into one get?. -/
def withdraw (st : State) (caller : Principal) (deposit_index : Nat)
    (now : Nat) (transfer : TransferResult) :
    Except StakingError Nat × State :=
  match lookupAssoc st.users caller with
  | none => (.error .DepositNotFound, st)
  | some deposits =>
      match deposits.get? deposit_index with
      | none => (.error .DepositNotFound, st)
      | some d =>
          if now < d.deposit_time + d.lock_period then
            (.error .LockPeriodNotExpired, st)
          else
            match transfer with
            | .success =>
                (.ok (d.amount - DEFAULT_FEE_E8S),
                 withdrawCommit st caller deposit_index d.amount)
            | .ledgerRejected => (.error .TransferFailed, st)
            | .transportFailed => (.error .TransferFailed, st)

/-- Dynamic borrow state of a RefCell: unused, n live shared borrows,
or one live mutable borrow. -/
inductive BorrowFlag where
  | unused
  | reading (n : Nat)
  | writing
deriving DecidableEq

/-- RefCell::borrow: fails while a mutable borrow is live. -/
def borrowShared : BorrowFlag → Option BorrowFlag
  | .unused => some (.reading 1)
  | .reading n => some (.reading (n + 1))
  | .writing => none

/-- RefCell::borrow_mut: fails while any borrow is live. -/
def borrowMut : BorrowFlag → Option BorrowFlag
  | .unused => some .writing
  | .reading _ => none
  | .writing => none

/-- The final bookkeeping statement of reward_pool (lib.rs 303-305):
s.borrow_mut().total_staked = s.borrow().total_staked.saturating_add(d).
Rust evaluates the right operand of an assignment first, and the shared
Ref temporary it creates lives to the end of the statement, so the
subsequent borrow_mut of the left operand runs with the shared borrow
still live. -/
def rewardPoolTotalUpdate (st : State) (total_distributed : Nat) : Option State :=
  match borrowShared .unused with
  | none => none
  | some flag1 =>
      let v := satAddU64 st.total_staked total_distributed
      match borrowMut flag1 with
      | none => none
      | some _ => some { st with total_staked := v }

/-- The final bookkeeping statement of slash_pool (lib.rs 372-374):
s.borrow_mut().total_staked = s.borrow().total_staked.saturating_sub(d),
with the same borrow shape as rewardPoolTotalUpdate. -/
def slashPoolTotalUpdate (st : State) (total_slashed : Nat) : Option State :=
  match borrowShared .unused with
  | none => none
  | some flag1 =>
      let v := st.total_staked - total_slashed
      match borrowMut flag1 with
      | none => none
      | some _ => some { st with total_staked := v }

/-- (deposit.amount as u128 * pot as u128 / total as u128) as u64
(lib.rs 263).  The u128 product of two u64 values never overflows; the
final cast truncates mod 2 ^ 64. -/
def rewardShare (amount pot total : Nat) : Nat := castU64 (amount * pot / total)

/-- In-place update of the first deposit with the given subaccount
(the for-loop with break of lib.rs 284-289). -/
def bumpFirst (f : Nat → Nat) (sub : Subaccount) : List Deposit → List Deposit
  | [] => []
  | d :: rest =>
      if d.subaccount = sub then { d with amount := f d.amount } :: rest
      else d :: bumpFirst f sub rest

/-- users.get_mut(user) followed by the first-matching-subaccount update
(no-op if the user is absent). -/
def creditDeposit (users : List (Principal × List Deposit)) (u : Principal)
    (sub : Subaccount) (f : Nat → Nat) : List (Principal × List Deposit) :=
  updateAssoc (bumpFirst f sub) users u

/-- Accumulator of the reward/slash distribution loops: the live users
map, the running total, the log of issued transfers (destination
subaccount of the deposit and amount) and the count of transfers
attempted so far (index into the outcome oracle). -/
structure LoopAcc where
  users : List (Principal × List Deposit)
  total : Nat
  transfers : List (Subaccount × Nat)
  k : Nat
deriving DecidableEq

/-- Inner reward loop over one snapshot user entry (lib.rs 262-299).
oracle gives the outcome of the k-th attempted transfer.  A zero share
is skipped with no transfer; a failed transfer is skipped (continue);
total_distributed += user_reward is unchecked u64 addition (none on
overflow); a successful transfer credits the live deposit with
saturating_add. -/
def rewardDeposits (oracle : Nat → TransferResult) (total pot : Nat)
    (u : Principal) : List Deposit → LoopAcc → Option LoopAcc
  | [], acc => some acc
  | d :: rest, acc =>
      let share := rewardShare d.amount pot total
      if share = 0 then rewardDeposits oracle total pot u rest acc
      else
        match oracle acc.k with
        | .success =>
            match checkedAddU64 acc.total share with
            | none => none
            | some dist1 =>
                rewardDeposits oracle total pot u rest
                  { users := creditDeposit acc.users u d.subaccount
                      (fun a => satAddU64 a share),
                    total := dist1,
                    transfers := acc.transfers ++ [(d.subaccount, share)],
                    k := acc.k + 1 }
        | _ =>
            rewardDeposits oracle total pot u rest
              { acc with transfers := acc.transfers ++ [(d.subaccount, share)],
                         k := acc.k + 1 }

/-- Outer reward loop over the snapshot of users (lib.rs 261). -/
def rewardUsers (oracle : Nat → TransferResult) (total pot : Nat) :
    List (Principal × List Deposit) → LoopAcc → Option LoopAcc
  | [], acc => some acc
  | (u, ds) :: rest, acc =>
      match rewardDeposits oracle total pot u ds acc with
      | none => none
      | some acc1 => rewardUsers oracle total pot rest acc1

/-- reward_pool (lib.rs 228-308).  balance is the reply of the reward
subaccount balance query; oracle the outcomes of the sequential
transfers.  The resolved reward subaccount only addresses the remote
calls, which the oracle abstracts.  When the distribution loop
completes, the final bookkeeping statement runs (and traps, see
rewardPoolTotalUpdate). -/
def reward_pool (st : State) (balance : Option Nat)
    (oracle : Nat → TransferResult) : Option (Except StakingError Nat × State) :=
  let st1 := (State.get_reward_subaccount st).2
  if st1.total_staked = 0 then some (.ok 0, st1)
  else
    match balance with
    | none => some (.error .TransferFailed, st1)
    | some bal =>
        if bal ≤ DEFAULT_FEE_E8S then some (.error .InsufficientFunds, st1)
        else
          let pot := bal - DEFAULT_FEE_E8S
          match rewardUsers oracle st1.total_staked pot st1.users
              { users := st1.users, total := 0, transfers := [], k := 0 } with
          | none => none
          | some acc =>
              match rewardPoolTotalUpdate { st1 with users := acc.users }
                  acc.total with
              | none => none
              | some st2 => some (.ok acc.total, st2)

/-- Inner slash loop over one snapshot user entry (lib.rs 330-368).
A share at or below the fee is skipped with no transfer; the transfer
carries share - fee; on success the live deposit is debited the full
share with saturating_sub and total_slashed += share is unchecked u64
addition. -/
def slashDeposits (oracle : Nat → TransferResult) (total amount : Nat)
    (u : Principal) : List Deposit → LoopAcc → Option LoopAcc
  | [], acc => some acc
  | d :: rest, acc =>
      let share := castU64 (d.amount * amount / total)
      if DEFAULT_FEE_E8S < share then
        match oracle acc.k with
        | .success =>
            match checkedAddU64 acc.total share with
            | none => none
            | some slashed1 =>
                slashDeposits oracle total amount u rest
                  { users := creditDeposit acc.users u d.subaccount
                      (fun a => a - share),
                    total := slashed1,
                    transfers := acc.transfers ++ [(d.subaccount, share - DEFAULT_FEE_E8S)],
                    k := acc.k + 1 }
        | _ =>
            slashDeposits oracle total amount u rest
              { acc with
                transfers := acc.transfers ++ [(d.subaccount, share - DEFAULT_FEE_E8S)],
                k := acc.k + 1 }
      else slashDeposits oracle total amount u rest acc

/-- Outer slash loop over the snapshot of users (lib.rs 329). -/
def slashUsers (oracle : Nat → TransferResult) (total amount : Nat) :
    List (Principal × List Deposit) → LoopAcc → Option LoopAcc
  | [], acc => some acc
  | (u, ds) :: rest, acc =>
      match slashDeposits oracle total amount u ds acc with
      | none => none
      | some acc1 => slashUsers oracle total amount rest acc1

/-- slash_pool (lib.rs 312-377).  receiver only addresses the remote
transfers, which the oracle abstracts.  When the loop completes, the
final bookkeeping statement runs (and traps, see slashPoolTotalUpdate). -/
def slash_pool (st : State) (amount : Nat) (receiver : Principal)
    (oracle : Nat → TransferResult) : Option (Except StakingError Nat × State) :=
  if amount = 0 then some (.error .InvalidAmount, st)
  else if st.total_staked = 0 ∨ st.total_staked < amount then
    some (.error .InsufficientFunds, st)
  else
    match slashUsers oracle st.total_staked amount st.users
        { users := st.users, total := 0, transfers := [], k := 0 } with
    | none => none
    | some acc =>
        match slashPoolTotalUpdate { st with users := acc.users } acc.total with
        | none => none
        | some st2 => some (.ok acc.total, st2)

/-- get_reward_address (lib.rs 380-390): resolves the reward subaccount
and returns its derived address (the returned textual address is the
injective external account derivation of the resolved subaccount, so
the model returns the subaccount itself).  The endpoint is an
ic_cdk::query: state changes made during a query call are discarded
when the call ends, so the lazy memoization and the counter advance
performed inside get_reward_subaccount never persist from this
endpoint and the state it leaves behind is its input state. -/
def get_reward_address (st : State) : Subaccount × State :=
  ((State.get_reward_subaccount st).1, st)

/-- cleanup_expired_deposits (lib.rs 395-409): retains the pending
deposits with current_time <= created_time + 15min and returns how many
were removed. -/
def cleanup_expired_deposits (st : State) (now : Nat) : Nat × State :=
  let kept := st.pending_deposits.filter
    (fun p => decide (now ≤ p.2.created_time + FIFTEEN_MIN_NS))
  (st.pending_deposits.length - kept.length,
   { st with pending_deposits := kept })

/-- One invocation of a state-changing operation, carrying the caller
inputs, the time() value and the replies of the remote ledger calls. -/
inductive Op where
  | create (caller amount : Nat) (lock : LockPeriod) (now : Nat)
  | confirm (caller : Nat) (sub : Subaccount) (now : Nat) (balance : Option Nat)
  | withdrawal (caller idx now : Nat) (transfer : TransferResult)
  | reward (balance : Option Nat) (oracle : Nat → TransferResult)
  | slash (amount receiver : Nat) (oracle : Nat → TransferResult)
  | cleanup (now : Nat)
  | rewardAddr

/-- The state after one completed (non-trapping) execution of an
operation; none when the execution traps.  Executions returning an
ordinary error value are completed executions and leave the state as
the source leaves it. -/
def applyOp (st : State) : Op → Option State
  | .create c a l n => some (create_deposit_intention st c a l n).2
  | .confirm c s n b => (confirm_deposit st c s n b).map Prod.snd
  | .withdrawal c i n tr => some (withdraw st c i n tr).2
  | .reward b o => (reward_pool st b o).map Prod.snd
  | .slash a r o => (slash_pool st a r o).map Prod.snd
  | .cleanup n => some (cleanup_expired_deposits st n).2
  | .rewardAddr => some (get_reward_address st).2

/-- A non-interleaved run of completed operations. -/
def runOps (st : State) : List Op → Option State
  | [] => some st
  | op :: rest =>
      match applyOp st op with
      | none => none
      | some st1 => runOps st1 rest

/-- Sum of the amounts of a deposit list. -/
def sumDeposits : List Deposit → Nat
  | [] => 0
  | d :: rest => d.amount + sumDeposits rest

/-- Sum of all live deposit amounts across all identities. -/
def sumUsers : List (Principal × List Deposit) → Nat
  | [] => 0
  | p :: rest => sumDeposits p.2 + sumUsers rest

/-- The accounting invariant: total_staked equals the sum of all live
deposit amounts. -/
def totalInvariant (st : State) : Prop := st.total_staked = sumUsers st.users

/-! Elementary facts about the embedded operations. -/

theorem rewardPoolTotalUpdate_none (st : State) (d : Nat) :
    rewardPoolTotalUpdate st d = none := rfl

theorem slashPoolTotalUpdate_none (st : State) (d : Nat) :
    slashPoolTotalUpdate st d = none := rfl

theorem checkedAddU64_eq_some {a b c : Nat} (h : checkedAddU64 a b = some c) :
    c = a + b ∧ a + b ≤ U64MAX := by
  unfold checkedAddU64 at h
  split at h
  · exact ⟨(Option.some.injEq _ _ ▸ h).symm, by assumption⟩
  · exact absurd h (by simp)

theorem grs_of_some {st : State} {x : Subaccount}
    (h : st.reward_subaccount = some x) :
    State.get_reward_subaccount st = (x, st) := by
  simp [State.get_reward_subaccount, h]

theorem grs_mem (st : State) :
    (State.get_reward_subaccount st).2.reward_subaccount =
      some (State.get_reward_subaccount st).1 := by
  rcases h : st.reward_subaccount with _ | x
  · simp [State.get_reward_subaccount, h]
  · simp [State.get_reward_subaccount, h]

theorem grs_users (st : State) :
    (State.get_reward_subaccount st).2.users = st.users := by
  rcases h : st.reward_subaccount with _ | x
  · simp [State.get_reward_subaccount, State.generate_subaccount, h]
  · simp [State.get_reward_subaccount, h]

theorem grs_total (st : State) :
    (State.get_reward_subaccount st).2.total_staked = st.total_staked := by
  rcases h : st.reward_subaccount with _ | x
  · simp [State.get_reward_subaccount, State.generate_subaccount, h]
  · simp [State.get_reward_subaccount, h]

/-! Sum lemmas. -/

theorem sumDeposits_append (ds : List Deposit) (d : Deposit) :
    sumDeposits (ds ++ [d]) = sumDeposits ds + d.amount := by
  induction ds with
  | nil => simp [sumDeposits]
  | cons e rest ih => simp [sumDeposits, ih]; omega

theorem sumUsers_pushDeposit (users : List (Principal × List Deposit))
    (u : Principal) (d : Deposit) :
    sumUsers (pushDeposit users u d) = sumUsers users + d.amount := by
  induction users with
  | nil => simp [pushDeposit, sumUsers, sumDeposits]
  | cons p rest ih =>
      obtain ⟨k, ds⟩ := p
      by_cases h : k = u
      · simp [pushDeposit, h, sumUsers, sumDeposits_append]; omega
      · simp [pushDeposit, h, sumUsers, ih]; omega

theorem sumDeposits_eraseIdx :
    ∀ (ds : List Deposit) (i : Nat) (d : Deposit), ds.get? i = some d →
      sumDeposits (ds.eraseIdx i) + d.amount = sumDeposits ds
  | [], i, d, h => by simp at h
  | e :: rest, 0, d, h => by
      simp at h
      subst h
      simp [List.eraseIdx, sumDeposits]
      omega
  | e :: rest, i + 1, d, h => by
      have ih := sumDeposits_eraseIdx rest i d (by simpa using h)
      simp [List.eraseIdx, sumDeposits]
      omega

theorem sumUsers_update_erase :
    ∀ (users : List (Principal × List Deposit)) (u : Principal)
      (ds : List Deposit) (i : Nat) (d : Deposit),
      lookupAssoc users u = some ds → ds.get? i = some d →
      sumUsers (updateAssoc (fun l => l.eraseIdx i) users u) + d.amount =
        sumUsers users
  | [], u, ds, i, d, h, _ => by simp [lookupAssoc] at h
  | (k, v) :: rest, u, ds, i, d, h, hg => by
      by_cases hk : k = u
      · simp [lookupAssoc, hk] at h
        subst h
        have := sumDeposits_eraseIdx v i d hg
        simp [updateAssoc, hk, sumUsers]
        omega
      · simp [lookupAssoc, hk] at h
        have ih := sumUsers_update_erase rest u ds i d h hg
        simp [updateAssoc, hk, sumUsers]
        omega

/-! Shape of the state each operation leaves behind. -/

theorem create_effects (st : State) (c : Principal) (a : Nat)
    (l : LockPeriod) (n : Nat) :
    (create_deposit_intention st c a l n).2.users = st.users ∧
    (create_deposit_intention st c a l n).2.total_staked = st.total_staked ∧
    (create_deposit_intention st c a l n).2.reward_subaccount =
      st.reward_subaccount := by
  unfold create_deposit_intention
  split
  · exact ⟨rfl, rfl, rfl⟩
  · exact ⟨rfl, rfl, rfl⟩

theorem cleanup_effects (st : State) (n : Nat) :
    (cleanup_expired_deposits st n).2.users = st.users ∧
    (cleanup_expired_deposits st n).2.total_staked = st.total_staked ∧
    (cleanup_expired_deposits st n).2.reward_subaccount =
      st.reward_subaccount :=
  ⟨rfl, rfl, rfl⟩

theorem confirm_state_cases (st : State) (caller : Principal)
    (sub : Subaccount) (now : Nat) (balance : Option Nat)
    (out : Except StakingError Unit × State)
    (h : confirm_deposit st caller sub now balance = some out) :
    (out.2.users = st.users ∧ out.2.total_staked = st.total_staked ∧
     out.2.reward_subaccount = st.reward_subaccount) ∨
    (∃ pd bal, lookupAssoc st.pending_deposits sub = some pd ∧
       balance = some bal ∧ st.total_staked + bal ≤ U64MAX ∧
       out.2.users = pushDeposit st.users caller
         { amount := bal, deposit_time := now,
           lock_period := pd.lock_period, subaccount := sub } ∧
       out.2.total_staked = st.total_staked + bal ∧
       out.2.reward_subaccount = st.reward_subaccount) := by
  unfold confirm_deposit at h
  split at h
  · cases h; exact Or.inl ⟨rfl, rfl, rfl⟩
  · rename_i pd hpd
    split at h
    · cases h; exact Or.inl ⟨rfl, rfl, rfl⟩
    · split at h
      · cases h; exact Or.inl ⟨rfl, rfl, rfl⟩
      · split at h
        · cases h; exact Or.inl ⟨rfl, rfl, rfl⟩
        · rename_i bal
          split at h
          · cases h; exact Or.inl ⟨rfl, rfl, rfl⟩
          · split at h
            · exact absurd h (by simp)
            · rename_i total1 hadd
              obtain ⟨h1, h2⟩ := checkedAddU64_eq_some hadd
              cases h
              exact Or.inr ⟨pd, bal, hpd, rfl, h2, rfl, by simpa using h1, rfl⟩

theorem withdraw_state_cases (st : State) (caller : Principal)
    (i now : Nat) (tr : TransferResult)
    (out : Except StakingError Nat × State)
    (h : withdraw st caller i now tr = out) :
    (out.2 = st) ∨
    (∃ ds d, lookupAssoc st.users caller = some ds ∧ ds.get? i = some d ∧
       out.2.users = updateAssoc (fun l => l.eraseIdx i) st.users caller ∧
       out.2.total_staked = st.total_staked - d.amount ∧
       out.2.reward_subaccount = st.reward_subaccount) := by
  unfold withdraw at h
  split at h
  · cases h; exact Or.inl rfl
  · rename_i ds hds
    split at h
    · cases h; exact Or.inl rfl
    · rename_i d hd
      split at h
      · cases h; exact Or.inl rfl
      · split at h
        · cases h
          refine Or.inr ⟨ds, d, hds, hd, ?_, ?_, ?_⟩ <;>
            simp [withdrawCommit, hds]
        · cases h; exact Or.inl rfl
        · cases h; exact Or.inl rfl

theorem reward_pool_state (st : State) (b : Option Nat)
    (o : Nat → TransferResult) (out : Except StakingError Nat × State)
    (h : reward_pool st b o = some out) :
    out.2 = (State.get_reward_subaccount st).2 := by
  simp only [reward_pool] at h
  by_cases h0 : (State.get_reward_subaccount st).2.total_staked = 0
  · rw [if_pos h0] at h
    cases h; rfl
  · rw [if_neg h0] at h
    split at h
    · cases h; rfl
    · split at h
      · cases h; rfl
      · split at h
        · exact absurd h (by simp)
        · rw [rewardPoolTotalUpdate_none] at h
          exact absurd h (by simp)

theorem slash_pool_state (st : State) (a : Nat) (r : Principal)
    (o : Nat → TransferResult) (out : Except StakingError Nat × State)
    (h : slash_pool st a r o = some out) :
    out.2 = st := by
  unfold slash_pool at h
  split at h
  · cases h; rfl
  · split at h
    · cases h; rfl
    · split at h
      · exact absurd h (by simp)
      · rw [slashPoolTotalUpdate_none] at h
        exact absurd h (by simp)

/-! Preservation of the accounting invariant and of the memoized reward
subaccount along completed operations. -/

theorem applyOp_invariant {st st2 : State} {op : Op}
    (h : applyOp st op = some st2) (hinv : totalInvariant st) :
    totalInvariant st2 := by
  unfold totalInvariant at hinv ⊢
  cases op with
  | create c a l n =>
      obtain ⟨hu, ht, _⟩ := create_effects st c a l n
      cases h
      rw [hu, ht]; exact hinv
  | confirm c s n b =>
      rw [applyOp, Option.map_eq_some'] at h
      obtain ⟨out, hout, h2⟩ := h
      rcases confirm_state_cases st c s n b out hout with
        ⟨hu, ht, _⟩ | ⟨pd, bal, _, _, _, hu, ht, _⟩
      · rw [← h2, hu, ht]; exact hinv
      · rw [← h2, hu, ht, sumUsers_pushDeposit, hinv]
  | withdrawal c i n tr =>
      cases h
      rcases withdraw_state_cases st c i n tr _ rfl with
        heq | ⟨ds, d, hds, hd, hu, ht, _⟩
      · rw [heq]; exact hinv
      · rw [hu, ht, hinv]
        have := sumUsers_update_erase st.users c ds i d hds hd
        omega
  | reward b o =>
      rw [applyOp, Option.map_eq_some'] at h
      obtain ⟨out, hout, h2⟩ := h
      have := reward_pool_state st b o out hout
      rw [← h2, this, grs_users, grs_total]
      exact hinv
  | slash a r o =>
      rw [applyOp, Option.map_eq_some'] at h
      obtain ⟨out, hout, h2⟩ := h
      have := slash_pool_state st a r o out hout
      rw [← h2, this]
      exact hinv
  | cleanup n =>
      cases h
      exact hinv
  | rewardAddr =>
      cases h
      exact hinv

theorem applyOp_reward_sub {st st2 : State} {op : Op} {x : Subaccount}
    (h : applyOp st op = some st2) (hx : st.reward_subaccount = some x) :
    st2.reward_subaccount = some x := by
  cases op with
  | create c a l n =>
      obtain ⟨_, _, hr⟩ := create_effects st c a l n
      cases h
      rw [hr]; exact hx
  | confirm c s n b =>
      rw [applyOp, Option.map_eq_some'] at h
      obtain ⟨out, hout, h2⟩ := h
      rcases confirm_state_cases st c s n b out hout with
        ⟨_, _, hr⟩ | ⟨pd, bal, _, _, _, _, _, hr⟩ <;>
        rw [← h2, hr] <;> exact hx
  | withdrawal c i n tr =>
      cases h
      rcases withdraw_state_cases st c i n tr _ rfl with
        heq | ⟨ds, d, _, _, _, _, hr⟩
      · rw [heq]; exact hx
      · rw [hr]; exact hx
  | reward b o =>
      rw [applyOp, Option.map_eq_some'] at h
      obtain ⟨out, hout, h2⟩ := h
      have := reward_pool_state st b o out hout
      rw [← h2, this, grs_of_some hx]
      exact hx
  | slash a r o =>
      rw [applyOp, Option.map_eq_some'] at h
      obtain ⟨out, hout, h2⟩ := h
      have := slash_pool_state st a r o out hout
      rw [← h2, this]
      exact hx
  | cleanup n =>
      cases h
      exact hx
  | rewardAddr =>
      cases h
      exact hx

theorem runOps_invariant :
    ∀ (ops : List Op) (st st2 : State), runOps st ops = some st2 →
      totalInvariant st → totalInvariant st2
  | [], st, st2, h, hinv => by
      cases h; exact hinv
  | op :: rest, st, st2, h, hinv => by
      unfold runOps at h
      split at h
      · exact absurd h (by simp)
      · rename_i st1 h1
        exact runOps_invariant rest st1 st2 h (applyOp_invariant h1 hinv)

theorem runOps_reward_sub :
    ∀ (ops : List Op) (st st2 : State) (x : Subaccount),
      runOps st ops = some st2 → st.reward_subaccount = some x →
      st2.reward_subaccount = some x
  | [], st, st2, x, h, hx => by
      cases h; exact hx
  | op :: rest, st, st2, x, h, hx => by
      unfold runOps at h
      split at h
      · exact absurd h (by simp)
      · rename_i st1 h1
        exact runOps_reward_sub rest st1 st2 x h (applyOp_reward_sub h1 hx)

/-! Concrete fixtures used by the closed evaluations below. -/

/-- The all-zero subaccount, issued for counter value 0. -/
def subZ : Subaccount := List.replicate 24 0 ++ beBytes8 0

/-- A confirmed deposit of 100 e8s with a 90-day lock, taken at time 0. -/
def dep90 : Deposit :=
  { amount := 100, deposit_time := 0,
    lock_period := LockPeriod.Days90.to_seconds, subaccount := subZ }

/-- A pool holding exactly dep90. -/
def oneDepositSt : State :=
  { users := [(1, [dep90])], total_staked := 100, next_subaccount_id := 1,
    pending_deposits := [], reward_subaccount := none }

/-- A pending deposit owned by identity 1, expecting 10 e8s, created at
time 0. -/
def pendZ : PendingDeposit :=
  { user := 1, expected_amount := 10,
    lock_period := LockPeriod.Days90.to_seconds, created_time := 0 }

/-- A pool with exactly pendZ awaiting confirmation. -/
def onePendingSt : State :=
  { users := [], total_staked := 0, next_subaccount_id := 1,
    pending_deposits := [(subZ, pendZ)], reward_subaccount := none }

/-- A confirmed deposit of 1_000_000 e8s with a 90-day lock. -/
def bigDep : Deposit :=
  { amount := 1000000, deposit_time := 0,
    lock_period := LockPeriod.Days90.to_seconds, subaccount := subZ }

/-- A pool holding exactly bigDep. -/
def bigDepositSt : State :=
  { users := [(1, [bigDep])], total_staked := 1000000, next_subaccount_id := 1,
    pending_deposits := [], reward_subaccount := none }

/-- C1: contrary to the claim that reward_pool and slash_pool complete
without trapping after their distribution loops, any execution that
reaches the final total_staked bookkeeping statement traps on the
RefCell double borrow: here a funded reward round over a pool with one
deposit (every transfer succeeding), and a slash round whose loop
completes, both evaluate to none (trap). -/
theorem c1_final_update_traps :
    reward_pool oneDepositSt (some 20000) (fun _ => TransferResult.success) =
      none ∧
    slash_pool oneDepositSt 50 7 (fun _ => TransferResult.success) = none := by
  exact ⟨by decide, by decide⟩

/-- C2: the lock check of withdraw compares the nanosecond timestamp
now against deposit_time + lock_period with lock_period in seconds, so
a 90-day lock expires 7_776_000 nanoseconds (about 7.8 ms) after the
deposit instead of 7_776_000 seconds: at now = 7_776_000 the withdrawal
already succeeds (returning the post-fee amount) although 7_776_000 is
far below the 90-day lock expressed in nanoseconds. -/
theorem c2_lock_expires_in_ns :
    (withdraw bigDepositSt 1 0 7776000 TransferResult.success).1 =
      Except.ok 990000 ∧
    (withdraw bigDepositSt 1 0 7775999 TransferResult.success).1 =
      Except.error StakingError.LockPeriodNotExpired ∧
    7776000 < LockPeriod.Days90.to_seconds * 1000000000 := by
  exact ⟨by decide, by decide, by decide⟩

/-- C3: contrary to the claim, two resolutions of the reward address
through the get_reward_address query endpoint separated by a
subaccount-allocating create_deposit_intention return different
values: a query call's memoization is discarded, so on a fresh state
the first query resolves the subaccount of counter 0, the intervening
intention then allocates that same subaccount for itself, and the
second query resolves the subaccount of counter 1. -/
theorem c3_reward_address_drifts :
    (get_reward_address State.default).1 ≠
      (get_reward_address
        (create_deposit_intention (get_reward_address State.default).2
          1 100 LockPeriod.Days90 0).2).1 := by decide

/-- C4: after any non-interleaved run of completed operations from the
initial state, total_staked equals the sum of all live deposit amounts
across all identities. -/
theorem c4_total_staked_invariant :
    ∀ (ops : List Op) (st2 : State),
      runOps State.default ops = some st2 → totalInvariant st2 := by
  intro ops st2 h
  exact runOps_invariant ops State.default st2 h rfl

/-- Operations of the C4 witness run: create, confirm, reward-address
query, cleanup, withdrawal, an empty-pool reward round and a failing
slash. -/
def c4Ops : List Op :=
  [Op.create 1 5 LockPeriod.Days90 0, Op.confirm 1 subZ 0 (some 5),
   Op.rewardAddr, Op.cleanup 3,
   Op.withdrawal 1 0 7776000 TransferResult.success,
   Op.reward (some 0) (fun _ => TransferResult.success),
   Op.slash 1 7 (fun _ => TransferResult.success)]

/-- Final state of the C4 witness run. -/
def c4Final : State := (runOps State.default c4Ops).getD State.default

/-- Witness for C4 at a concrete run. -/
theorem c4_total_staked_invariant_wit :
    runOps State.default c4Ops = some c4Final ∧ totalInvariant c4Final :=
  ⟨by decide, c4_total_staked_invariant c4Ops c4Final (by decide)⟩

/-- C5 (amended): with the pending deposit present and the caller its
owner, confirm_deposit deletes the intention and fails with
DepositExpired exactly at times strictly later than created_time plus
15 minutes; at any time up to and including that bound it proceeds, and
with a sufficient funded balance (and no u64 overflow of total_staked)
it commits the deposit. -/
theorem c5_expiry_boundary :
    ∀ (st : State) (caller : Principal) (sub : Subaccount) (now : Nat)
      (balance : Option Nat) (pd : PendingDeposit),
      lookupAssoc st.pending_deposits sub = some pd →
      pd.user = caller →
      ((pd.created_time + FIFTEEN_MIN_NS < now →
          confirm_deposit st caller sub now balance =
            some (.error .DepositExpired,
              { st with pending_deposits :=
                  removeAssoc st.pending_deposits sub })) ∧
       (∀ b, now ≤ pd.created_time + FIFTEEN_MIN_NS → balance = some b →
          pd.expected_amount ≤ b → st.total_staked + b ≤ U64MAX →
          confirm_deposit st caller sub now balance =
            some (.ok (),
              { st with
                users := pushDeposit st.users caller
                  { amount := b, deposit_time := now,
                    lock_period := pd.lock_period, subaccount := sub },
                total_staked := st.total_staked + b,
                pending_deposits := removeAssoc st.pending_deposits sub }))) := by
  intro st caller sub now balance pd hpd huser
  constructor
  · intro hexp
    simp only [confirm_deposit, hpd, if_neg (not_not_intro huser),
      if_pos hexp]
  · intro b hnow hb hamt hmax
    subst hb
    have h2 : ¬ pd.created_time + FIFTEEN_MIN_NS < now := by omega
    have h3 : ¬ b < pd.expected_amount := by omega
    simp only [confirm_deposit, hpd, if_neg (not_not_intro huser),
      if_neg h2, if_neg h3, checkedAddU64, if_pos hmax]

/-- Counterexample to C5 as stated: at exactly created_time plus 15
minutes the claim requires DepositExpired, but confirmation still
succeeds there. -/
theorem c5_boundary_cex :
    (confirm_deposit onePendingSt 1 subZ FIFTEEN_MIN_NS (some 10)).map
      Prod.fst = some (Except.ok ()) := by decide

/-- Witness for C5 (amended) at concrete inputs: expiry one nanosecond
past the bound, and a successful confirmation well inside the window. -/
theorem c5_expiry_boundary_wit :
    confirm_deposit onePendingSt 1 subZ (FIFTEEN_MIN_NS + 1) (some 10) =
      some (.error .DepositExpired,
        { onePendingSt with
          pending_deposits := removeAssoc onePendingSt.pending_deposits subZ }) ∧
    confirm_deposit onePendingSt 1 subZ 100 (some 10) =
      some (.ok (),
        { onePendingSt with
          users := pushDeposit onePendingSt.users 1
            { amount := 10, deposit_time := 100,
              lock_period := pendZ.lock_period, subaccount := subZ },
          total_staked := onePendingSt.total_staked + 10,
          pending_deposits := removeAssoc onePendingSt.pending_deposits subZ }) :=
  ⟨(c5_expiry_boundary onePendingSt 1 subZ (FIFTEEN_MIN_NS + 1) (some 10) pendZ
      (by decide) rfl).1 (by decide),
   (c5_expiry_boundary onePendingSt 1 subZ 100 (some 10) pendZ
      (by decide) rfl).2 10 (by decide) rfl (by decide) (by decide)⟩

/-- C6: whenever confirm_deposit fails with Unauthorized or with
InsufficientFunds, the state is left exactly as it was: the pending
deposit is neither deleted nor modified, no deposit is created and
total_staked is unchanged. -/
theorem c6_error_leaves_state :
    ∀ (st : State) (caller : Principal) (sub : Subaccount) (now : Nat)
      (balance : Option Nat) (e : StakingError) (st2 : State),
      confirm_deposit st caller sub now balance = some (.error e, st2) →
      e = .Unauthorized ∨ e = .InsufficientFunds →
      st2 = st := by
  intro st caller sub now balance e st2 h he
  unfold confirm_deposit at h
  split at h
  · simp only [Option.some.injEq, Prod.mk.injEq] at h
    exact h.2.symm
  · split at h
    · simp only [Option.some.injEq, Prod.mk.injEq] at h
      exact h.2.symm
    · split at h
      · simp only [Option.some.injEq, Prod.mk.injEq] at h
        obtain ⟨he2, _⟩ := h
        rcases he with rfl | rfl <;> simp at he2
      · split at h
        · simp only [Option.some.injEq, Prod.mk.injEq] at h
          exact h.2.symm
        · split at h
          · simp only [Option.some.injEq, Prod.mk.injEq] at h
            exact h.2.symm
          · split at h
            · simp at h
            · simp only [Option.some.injEq, Prod.mk.injEq] at h
              obtain ⟨he2, _⟩ := h
              rcases he with rfl | rfl <;> simp at he2

/-- Witness for C6: a concrete Unauthorized confirmation attempt by a
non-owner leaves the state unchanged. -/
theorem c6_error_leaves_state_wit :
    confirm_deposit onePendingSt 2 subZ 0 (some 10) =
      some (.error .Unauthorized, onePendingSt) ∧ onePendingSt = onePendingSt :=
  ⟨by decide,
   c6_error_leaves_state onePendingSt 2 subZ 0 (some 10) .Unauthorized
     onePendingSt (by decide) (Or.inl rfl)⟩

/-- C7: once local validation passes (the caller has a deposit at the
index and its lock check passes), a ledger-rejected or transport-failed
transfer makes withdraw return TransferFailed with the state untouched,
while a successful transfer removes exactly the deposit at the original
index, subtracts its full pre-fee amount from total_staked and returns
the post-fee amount. -/
theorem c7_withdraw_outcomes :
    ∀ (st : State) (caller : Principal) (i now : Nat)
      (ds : List Deposit) (d : Deposit),
      lookupAssoc st.users caller = some ds →
      ds.get? i = some d →
      d.deposit_time + d.lock_period ≤ now →
      (withdraw st caller i now .ledgerRejected =
         (.error .TransferFailed, st) ∧
       withdraw st caller i now .transportFailed =
         (.error .TransferFailed, st) ∧
       withdraw st caller i now .success =
         (.ok (d.amount - DEFAULT_FEE_E8S),
          { st with
            users := updateAssoc (fun l => l.eraseIdx i) st.users caller,
            total_staked := st.total_staked - d.amount })) := by
  intro st caller i now ds d hds hd hlock
  have hnot : ¬ now < d.deposit_time + d.lock_period := by omega
  refine ⟨?_, ?_, ?_⟩ <;>
    simp only [withdraw, hds, hd, if_neg hnot, withdrawCommit]

/-- Witness for C7 at a concrete pool with one unlocked deposit. -/
theorem c7_withdraw_outcomes_wit :
    withdraw bigDepositSt 1 0 7776000 .ledgerRejected =
      (.error .TransferFailed, bigDepositSt) ∧
    withdraw bigDepositSt 1 0 7776000 .transportFailed =
      (.error .TransferFailed, bigDepositSt) ∧
    withdraw bigDepositSt 1 0 7776000 .success =
      (.ok (bigDep.amount - DEFAULT_FEE_E8S),
       { bigDepositSt with
         users := updateAssoc (fun l => l.eraseIdx 0) bigDepositSt.users 1,
         total_staked := bigDepositSt.total_staked - bigDep.amount }) :=
  c7_withdraw_outcomes bigDepositSt 1 0 7776000 [bigDep] bigDep
    (by decide) (by decide) (by decide)

/-- Spec-side description of the transfers one reward round issues
(spec section 4.4): one per snapshot deposit whose share is positive,
in snapshot order, carrying that share. -/
def rewardTransfersSpec (total pot : Nat)
    (users : List (Principal × List Deposit)) : List (Subaccount × Nat) :=
  (users.map Prod.snd).flatten.filterMap (fun d =>
    if rewardShare d.amount pot total = 0 then none
    else some (d.subaccount, rewardShare d.amount pot total))

theorem rewardDeposits_transfers (oracle : Nat → TransferResult)
    (total pot : Nat) (u : Principal) :
    ∀ (ds : List Deposit) (acc acc2 : LoopAcc),
      rewardDeposits oracle total pot u ds acc = some acc2 →
      acc2.transfers = acc.transfers ++ ds.filterMap (fun d =>
        if rewardShare d.amount pot total = 0 then none
        else some (d.subaccount, rewardShare d.amount pot total)) := by
  intro ds
  induction ds with
  | nil =>
      intro acc acc2 h
      cases h
      simp
  | cons d rest ih =>
      intro acc acc2 h
      unfold rewardDeposits at h
      by_cases hs : rewardShare d.amount pot total = 0
      · rw [if_pos hs] at h
        rw [ih acc acc2 h]
        simp [hs]
      · rw [if_neg hs] at h
        split at h
        · split at h
          · simp at h
          · rw [ih _ acc2 h]
            simp [hs, List.append_assoc]
        · rw [ih _ acc2 h]
          simp [hs, List.append_assoc]

theorem rewardUsers_transfers (oracle : Nat → TransferResult)
    (total pot : Nat) :
    ∀ (us : List (Principal × List Deposit)) (acc acc2 : LoopAcc),
      rewardUsers oracle total pot us acc = some acc2 →
      acc2.transfers = acc.transfers ++
        (us.map Prod.snd).flatten.filterMap (fun d =>
          if rewardShare d.amount pot total = 0 then none
          else some (d.subaccount, rewardShare d.amount pot total)) := by
  intro us
  induction us with
  | nil =>
      intro acc acc2 h
      cases h
      simp
  | cons p rest ih =>
      intro acc acc2 h
      obtain ⟨u, ds⟩ := p
      unfold rewardUsers at h
      split at h
      · simp at h
      · rename_i acc1 h1
        rw [ih acc1 acc2 h,
          rewardDeposits_transfers oracle total pot u ds acc acc1 h1]
        simp [List.append_assoc]

theorem rewardTransfersSpec_pos (total pot : Nat)
    (users : List (Principal × List Deposit)) :
    ∀ t ∈ rewardTransfersSpec total pot users, 0 < t.2 := by
  intro t ht
  unfold rewardTransfersSpec at ht
  rw [List.mem_filterMap] at ht
  obtain ⟨d, _, hd⟩ := ht
  by_cases hs : rewardShare d.amount pot total = 0
  · rw [if_pos hs] at hd
    cases hd
  · rw [if_neg hs] at hd
    cases hd
    simpa using Nat.pos_of_ne_zero hs

theorem mul_u64_lt_two_pow_128 (a pot : Nat) (ha : a ≤ U64MAX)
    (hp : pot ≤ U64MAX) : a * pot < 2 ^ 128 := by
  have h := Nat.mul_le_mul ha hp
  have h2 : U64MAX * U64MAX < 2 ^ 128 := by norm_num [U64MAX]
  omega

theorem rewardShare_exact (a pot total : Nat) (ha : a ≤ total)
    (hpot : pot ≤ U64MAX) : rewardShare a pot total = a * pot / total := by
  unfold rewardShare castU64
  rcases Nat.eq_zero_or_pos total with h0 | h0
  · subst h0
    simp
  · have h1 : a * pot / total ≤ pot := by
      calc a * pot / total ≤ total * pot / total :=
            Nat.div_le_div_right (Nat.mul_le_mul_right pot ha)
        _ = pot := Nat.mul_div_cancel_left pot h0
    have h2 : a * pot / total < 2 ^ 64 := by
      have h3 : U64MAX < 2 ^ 64 := by norm_num [U64MAX]
      omega
    exact Nat.mod_eq_of_lt h2

/-- C8: with a nonzero total stake and a successful balance query,
reward_pool fails with InsufficientFunds exactly when the reward
balance is at or below the ledger fee; the u128 intermediate product of
the share computation never overflows for u64 inputs; the share of a
deposit whose amount is bounded by total_staked is exactly
floor(amount * pot / total); and the distribution loop issues exactly
one transfer per snapshot deposit with a positive share (deposits with
share zero are skipped with no transfer issued), where the pot is the
balance minus the fee. -/
theorem c8_reward_numeric :
    (∀ (st : State) (bal : Nat) (oracle : Nat → TransferResult),
       st.total_staked ≠ 0 →
       ((reward_pool st (some bal) oracle).map Prod.fst =
          some (.error .InsufficientFunds) ↔ bal ≤ DEFAULT_FEE_E8S)) ∧
    (∀ a pot : Nat, a ≤ U64MAX → pot ≤ U64MAX → a * pot < 2 ^ 128) ∧
    (∀ a pot total : Nat, a ≤ total → pot ≤ U64MAX →
       rewardShare a pot total = a * pot / total) ∧
    (∀ (oracle : Nat → TransferResult) (total pot : Nat)
       (users : List (Principal × List Deposit)) (acc : LoopAcc),
       rewardUsers oracle total pot users
         { users := users, total := 0, transfers := [], k := 0 } = some acc →
       acc.transfers = rewardTransfersSpec total pot users ∧
       ∀ t ∈ acc.transfers, 0 < t.2) := by
  refine ⟨?_, mul_u64_lt_two_pow_128, rewardShare_exact, ?_⟩
  · intro st bal oracle hne
    have hne1 : (State.get_reward_subaccount st).2.total_staked ≠ 0 := by
      rw [grs_total]
      exact hne
    simp only [reward_pool]
    rw [if_neg hne1]
    by_cases hf : bal ≤ DEFAULT_FEE_E8S
    · rw [if_pos hf]
      simp [hf]
    · rw [if_neg hf]
      constructor
      · intro habs
        rcases hru : rewardUsers oracle
            (State.get_reward_subaccount st).2.total_staked
            (bal - DEFAULT_FEE_E8S) (State.get_reward_subaccount st).2.users
            { users := (State.get_reward_subaccount st).2.users, total := 0,
              transfers := [], k := 0 } with _ | acc
        · rw [hru] at habs
          simp at habs
        · simp only [hru, rewardPoolTotalUpdate_none] at habs
          simp at habs
      · intro hle
        exact absurd hle hf
  · intro oracle total pot users acc h
    have ht := rewardUsers_transfers oracle total pot users _ acc h
    simp only [List.nil_append] at ht
    refine ⟨ht, ?_⟩
    rw [ht]
    exact rewardTransfersSpec_pos total pot users

/-- Loop accumulator of the C8 witness distribution round. -/
def c8Acc : LoopAcc :=
  (rewardUsers (fun _ => TransferResult.success) 100 9990 oneDepositSt.users
    { users := oneDepositSt.users, total := 0, transfers := [], k := 0 }).getD
    { users := [], total := 0, transfers := [], k := 0 }

/-- Witness for C8 at concrete inputs. -/
theorem c8_reward_numeric_wit :
    ((reward_pool oneDepositSt (some 3) (fun _ => TransferResult.success)).map
        Prod.fst = some (.error .InsufficientFunds) ↔ 3 ≤ DEFAULT_FEE_E8S) ∧
    2 * 3 < 2 ^ 128 ∧
    rewardShare 100 9990 100 = 100 * 9990 / 100 ∧
    (c8Acc.transfers = rewardTransfersSpec 100 9990 oneDepositSt.users ∧
     ∀ t ∈ c8Acc.transfers, 0 < t.2) :=
  ⟨c8_reward_numeric.1 oneDepositSt 3 (fun _ => TransferResult.success)
     (by decide),
   c8_reward_numeric.2.1 2 3 (by decide) (by decide),
   c8_reward_numeric.2.2.1 100 9990 100 (by decide) (by decide),
   c8_reward_numeric.2.2.2 (fun _ => TransferResult.success) 100 9990
     oneDepositSt.users c8Acc (by decide)⟩

theorem length_filter_add_compl {α : Type} (p : α → Bool) :
    ∀ l : List α,
      (l.filter p).length + (l.filter (fun x => ! p x)).length = l.length := by
  intro l
  induction l with
  | nil => simp
  | cons a rest ih =>
      by_cases h : p a <;> simp [List.filter_cons, h] <;> omega

/-- C9 (amended): cleanup_expired_deposits keeps exactly the pending
deposits with now at or before created_time + 15min — that is, it
removes exactly those with created_time + 15min strictly less than
now — touches nothing else, returns the number removed, and is
idempotent at a fixed time: a second call at the same timestamp always
returns 0 (if time advances between the calls, intentions whose expiry
was crossed in between are removed and counted by the second call). -/
theorem c9_cleanup_exact :
    (∀ (st : State) (now : Nat),
       (cleanup_expired_deposits st now).2.pending_deposits =
         st.pending_deposits.filter
           (fun q => decide (now ≤ q.2.created_time + FIFTEEN_MIN_NS)) ∧
       (cleanup_expired_deposits st now).2.users = st.users ∧
       (cleanup_expired_deposits st now).2.total_staked = st.total_staked) ∧
    (∀ (st : State) (now : Nat),
       (cleanup_expired_deposits st now).1 =
         (st.pending_deposits.filter
           (fun q => decide (q.2.created_time + FIFTEEN_MIN_NS < now))).length) ∧
    (∀ (st : State) (now : Nat),
       (cleanup_expired_deposits
         (cleanup_expired_deposits st now).2 now).1 = 0) := by
  refine ⟨fun st now => ⟨rfl, rfl, rfl⟩, ?_, ?_⟩
  · intro st now
    have hc : (fun q : Subaccount × PendingDeposit =>
          ! decide (now ≤ q.2.created_time + FIFTEEN_MIN_NS)) =
        (fun q => decide (q.2.created_time + FIFTEEN_MIN_NS < now)) := by
      funext q
      by_cases h : now ≤ q.2.created_time + FIFTEEN_MIN_NS
      · simp [h, Nat.not_lt.mpr h]
      · simp [h, Nat.not_le.mp h]
    have hl := length_filter_add_compl
      (fun q : Subaccount × PendingDeposit =>
        decide (now ≤ q.2.created_time + FIFTEEN_MIN_NS))
      st.pending_deposits
    rw [hc] at hl
    simp only [cleanup_expired_deposits]
    omega
  · intro st now
    simp only [cleanup_expired_deposits, List.filter_filter]
    simp [Nat.sub_self]

/-- Counterexample to C9 as stated: a second consecutive cleanup call
with no new intentions returns 1 rather than 0, because the only
pending intention's expiry is crossed between the two calls. -/
theorem c9_advance_cex :
    (cleanup_expired_deposits (cleanup_expired_deposits onePendingSt 1).2
      (FIFTEEN_MIN_NS + 2)).1 = 1 := by decide

/-- C10 (amended): the commit of confirm_deposit adds the observed
balance to total_staked with unchecked 64-bit addition and completes
without trapping exactly when the sum fits in u64; withdraw never
traps; the saturating operations never wrap (the saturating sum is
capped at u64::MAX, the saturating difference never exceeds its left
operand); but the total_staked update statements of reward_pool and
slash_pool, although their arithmetic is saturating, always trap on the
RefCell double borrow. -/
theorem c10_arithmetic_profile :
    (∀ (st : State) (caller : Principal) (sub : Subaccount) (now : Nat)
       (pd : PendingDeposit) (b : Nat),
       lookupAssoc st.pending_deposits sub = some pd →
       pd.user = caller →
       now ≤ pd.created_time + FIFTEEN_MIN_NS →
       pd.expected_amount ≤ b →
       (confirm_deposit st caller sub now (some b) = none ↔
         U64MAX < st.total_staked + b)) ∧
    (∀ (st : State) (caller i now : Nat) (tr : TransferResult),
       (applyOp st (Op.withdrawal caller i now tr)).isSome = true) ∧
    (∀ a b : Nat, satAddU64 a b ≤ U64MAX ∧ a - b ≤ a) ∧
    (∀ (st : State) (d : Nat), rewardPoolTotalUpdate st d = none) ∧
    (∀ (st : State) (d : Nat), slashPoolTotalUpdate st d = none) := by
  refine ⟨?_, ?_, ?_, rewardPoolTotalUpdate_none, slashPoolTotalUpdate_none⟩
  · intro st caller sub now pd b hpd huser hnow hamt
    have h2 : ¬ pd.created_time + FIFTEEN_MIN_NS < now := by omega
    have h3 : ¬ b < pd.expected_amount := by omega
    simp only [confirm_deposit, hpd, if_neg (not_not_intro huser), if_neg h2,
      if_neg h3, checkedAddU64]
    by_cases hmax : st.total_staked + b ≤ U64MAX
    · rw [if_pos hmax]
      simp
      omega
    · rw [if_neg hmax]
      simp
      omega
  · intro st caller i now tr
    rfl
  · intro a b
    exact ⟨min_le_right _ _, Nat.sub_le a b⟩

/-- Counterexample to C10 as stated: the total_staked update statements
of reward_pool and slash_pool trap here at a concrete input, although
the claim says the updates in reward_pool and slash_pool never wrap or
trap for any inputs. -/
theorem c10_trap_cex :
    rewardPoolTotalUpdate State.default 0 = none ∧
    slashPoolTotalUpdate State.default 0 = none := ⟨rfl, rfl⟩

/-- Witness for C10 (amended) at concrete inputs. -/
theorem c10_arithmetic_profile_wit :
    (confirm_deposit onePendingSt 1 subZ 0 (some 10) = none ↔
      U64MAX < onePendingSt.total_staked + 10) ∧
    (applyOp onePendingSt
      (Op.withdrawal 1 0 0 TransferResult.success)).isSome = true ∧
    (satAddU64 3 4 ≤ U64MAX ∧ 3 - 4 ≤ 3) ∧
    rewardPoolTotalUpdate onePendingSt 5 = none ∧
    slashPoolTotalUpdate onePendingSt 5 = none :=
  ⟨c10_arithmetic_profile.1 onePendingSt 1 subZ 0 pendZ 10 (by decide) rfl
     (by decide) (by decide),
   c10_arithmetic_profile.2.1 onePendingSt 1 0 0 TransferResult.success,
   c10_arithmetic_profile.2.2.1 3 4,
   c10_arithmetic_profile.2.2.2.1 onePendingSt 5,
   c10_arithmetic_profile.2.2.2.2 onePendingSt 5⟩

end StakingPool
